import Mathlib

/-!
A verification development for the QR_Analyzer repository (file `QR_Analyzer.py`).

The Python source is shallowly embedded below.  Pure computations (the
selection-rectangle math of `ManualAnalyzer.update_selection`, the clamping in
`ManualAnalyzer.detect_matrix`, the padded crop box and filename sanitization of
`MatrixProcessorThread.run`, the extension filters of the two `load_images`
methods) become Lean functions on exact numbers: Python's arbitrary-precision
ints are modelled as `Int`/`Nat` with `int()` truncation made explicit, and
Python floats as exact rationals.  Where float rounding is observable — the
progress formula `int((i + 1) / total_images * 100)` of line 95 — each float
operation is modelled as its exact rational value rounded to IEEE-754 binary64
by `roundDouble` (round to nearest, ties to even, on a 53-bit significand;
subnormals and overflow are not modelled, and int-to-float conversion is taken
as exact, both valid for the magnitudes involved), so that e.g. a batch of 100
images emits 28 after the 29th image, exactly as CPython does, where the exact
rational floor would give 29.  The batch worker `MatrixProcessorThread.run`
is embedded as a fold over the image list producing the ordered list of emitted
events (`progress` / `log_message` / `finished` signals) and the list of files
written, with the results of the external libraries (cv2, pylibdmtx, the
filesystem) supplied as per-image oracle data in `ImageCase`.  Exception
control flow is made explicit: the `continue` at line 43, the per-image and
per-symbol `try/except` blocks, and the fact that the line-93 handler
dereferences the local `base_name`, which is unbound until line 53 first runs,
so an exception raised before that on a first image escapes the handler as a
`NameError` and aborts the worker (field `aborted`).  Exception message texts
are abstracted to the placeholder `"<exception>"`; pixel contents are not
modelled, but buffer provenance is (the `Buffer` tree), which is enough to
state which buffer a crop was taken from.
-/

set_option maxRecDepth 200000

namespace QRAnalyzer

/-- Python `int()` applied to an exact real value: truncation toward zero. -/
def pyInt (q : ℚ) : ℤ := if 0 ≤ q then ⌊q⌋ else ⌈q⌉

/-- Base-2 logarithm on naturals by structural recursion on a fuel argument
(so that it reduces inside the kernel, unlike `Nat.log2`). -/
def log2fuel : ℕ → ℕ → ℕ
  | 0, _ => 0
  | fuel + 1, n => if 2 ≤ n then log2fuel fuel (n / 2) + 1 else 0

/-- `nlog2 n` is the floor of the base-2 logarithm of `n` (0 for `n = 0`). -/
def nlog2 (n : ℕ) : ℕ := log2fuel n n

/-- The binary exponent of a positive rational: the unique `e` with
`2 ^ e ≤ q < 2 ^ (e + 1)`.  `nlog2` of the numerator and denominator gives
a first approximation `e0` that is either the answer or one too large. -/
def ilog2q (q : ℚ) : ℤ :=
  let e0 : ℤ := (nlog2 q.num.toNat : ℤ) - (nlog2 q.den : ℤ)
  if q < 2 ^ e0 then e0 - 1 else e0

/-- Round a rational to the nearest integer, ties to even. -/
def rne (m : ℚ) : ℤ :=
  if m - ⌊m⌋ < 1 / 2 then ⌊m⌋
  else if 1 / 2 < m - ⌊m⌋ then ⌊m⌋ + 1
  else if ⌊m⌋ % 2 = 0 then ⌊m⌋ else ⌊m⌋ + 1

/-- IEEE-754 binary64 rounding (round to nearest, ties to even) of an exact
rational: the significand `q / 2 ^ (e - 52)` lies in `[2^52, 2^53)` and is
rounded to an integer.  Subnormals and overflow are not modelled (the model is
exact for results in the normal range), and only nonnegative inputs arise
here, so nonpositive inputs are mapped to 0. -/
def roundDouble (q : ℚ) : ℚ :=
  if q ≤ 0 then 0
  else (rne (q / 2 ^ (ilog2q q - 52)) : ℚ) * 2 ^ (ilog2q q - 52)

/-- A point in scene coordinates (a `QPointF`), modelled with exact rationals. -/
structure PointF where
  x : ℚ
  y : ℚ
  deriving DecidableEq, Repr

/-- A floating-point rectangle as stored by `QGraphicsScene.addRect`
(`x`, `y`, `width`, `height`). -/
structure SelRect where
  x : ℚ
  y : ℚ
  w : ℚ
  h : ℚ
  deriving DecidableEq, Repr

/-- An integer rectangle (`x`, `y`, `width`, `height`). -/
structure CropQuad where
  x : ℤ
  y : ℤ
  w : ℤ
  h : ℤ
  deriving DecidableEq, Repr

/-- `ManualAnalyzer.update_selection` (lines 203-215): the selection rectangle
recomputed from the drag start point and the current end point:
`x = min(start.x, end.x)`, `y = min(start.y, end.y)`,
`width = abs(end.x - start.x)`, `height = abs(end.y - start.y)`. -/
def update_selection (s e : PointF) : SelRect :=
  ⟨min s.x e.x, min s.y e.y, |e.x - s.x|, |e.y - s.y|⟩

/-- The clamping performed by `ManualAnalyzer.detect_matrix` (lines 229-235):
`x = max(0, int(rect.x()))`, `y = max(0, int(rect.y()))`,
`width = min(shape[1] - x, int(rect.width()))`,
`height = min(shape[0] - y, int(rect.height()))`,
where `shape[1]` is the image width `W` and `shape[0]` its height `H`. -/
def detect_matrix_clamp (W H : ℤ) (r : SelRect) : CropQuad :=
  ⟨max 0 (pyInt r.x),
   max 0 (pyInt r.y),
   min (W - max 0 (pyInt r.x)) (pyInt r.w),
   min (H - max 0 (pyInt r.y)) (pyInt r.h)⟩

/-- Per-character sanitization from line 78: `c if c.isalnum() else '_'`.
Python's `isalnum` is modelled on its ASCII fragment by `Char.isAlphanum`. -/
def sanitizeChar (c : Char) : Char := if c.isAlphanum then c else '_'

/-- Line 78: `safe_name = "".join(c if c.isalnum() else '_' for c in data)`. -/
def safe_name (data : String) : String := String.mk (data.data.map sanitizeChar)

/-- Python `str.lower`, restricted to its ASCII fragment (the extension
comparisons in `load_images` only involve ASCII characters). -/
def lowerStr (s : String) : String := String.mk (s.data.map Char.toLower)

/-- Python `str.endswith` for a single suffix. -/
def strEndsWith (s suffix : String) : Bool := suffix.data.isSuffixOf s.data

/-- The file filter of `ManualAnalyzer.load_images` (lines 162-165):
keep the file names for which `filename.lower().endswith(('.png', '.jpg',
'.jpeg', '.bmp'))` holds, in directory-listing order. -/
def manual_load_images (filenames : List String) : List String :=
  filenames.filter (fun f =>
    strEndsWith (lowerStr f) ".png" || strEndsWith (lowerStr f) ".jpg" ||
      strEndsWith (lowerStr f) ".jpeg" || strEndsWith (lowerStr f) ".bmp")

/-- The file filter of `AutomatedAnalyzer.load_images` (lines 313-316); its
condition is character-for-character the same as the manual one. -/
def auto_load_images (filenames : List String) : List String :=
  filenames.filter (fun f =>
    strEndsWith (lowerStr f) ".png" || strEndsWith (lowerStr f) ".jpg" ||
      strEndsWith (lowerStr f) ".jpeg" || strEndsWith (lowerStr f) ".bmp")

/-- The spec's acceptance predicate, following its words: names that end
case-insensitively with `.png`, `.jpg`, `.jpeg` or `.bmp`. -/
def specAcceptedExt (f : String) : Bool :=
  [".png", ".jpg", ".jpeg", ".bmp"].any (fun ext => strEndsWith (lowerStr f) ext)

/-- `os.path.basename` for POSIX paths: the part after the last `/`. -/
def basename (p : String) : String :=
  String.mk ((p.data.reverse.takeWhile (fun c => c ≠ '/')).reverse)

/-- The stem component of `os.path.splitext`: everything before the last dot,
where the run of leading dots of the name is not considered an extension
separator (so `".bashrc"` has stem `".bashrc"` but `"a.b.png"` has `"a.b"`). -/
def splitextStem (s : String) : String :=
  let cs := s.data
  let lead := cs.takeWhile (fun c => c = '.')
  let rest := cs.drop lead.length
  let afterRev := rest.reverse.dropWhile (fun c => c ≠ '.')
  if afterRev.isEmpty then s
  else String.mk (lead ++ (afterRev.drop 1).reverse)

/-- Line 53: `base_name = os.path.splitext(os.path.basename(image_path))[0]`. -/
def baseNameOf (path : String) : String := splitextStem (basename path)

/-- Provenance of a pixel buffer.  Only provenance (not pixel content) is
needed to state which buffer a crop was taken from. -/
inductive Buffer where
  | original (path : String)
  | scaled (b : Buffer) (w h : Nat)
  | grayscale (b : Buffer)
  | thresholded (b : Buffer)
  | denoised (b : Buffer)
  | cropped (b : Buffer) (x y w h : ℤ)
  deriving DecidableEq, Repr

/-- Whether a buffer is (at its top level) an output of the preprocessing
pipeline of lines 26-33. -/
def Buffer.isPreprocessed : Buffer → Bool
  | .grayscale _ => true
  | .thresholded _ => true
  | .denoised _ => true
  | _ => false

/-- `MatrixProcessorThread.preprocess_image` (lines 26-33): grayscale
conversion, adaptive Gaussian thresholding, then non-local-means denoising. -/
def preprocess_image (b : Buffer) : Buffer := .denoised (.thresholded (.grayscale b))

/-- A bounding rectangle as returned by `pylibdmtx` (`matrix.rect`):
`left`, `top`, `width`, `height`, all Python ints. -/
structure DmtxRect where
  left : ℤ
  top : ℤ
  width : ℤ
  height : ℤ
  deriving DecidableEq, Repr

/-- The padded crop box of lines 69-74, for an image of width `W` and height
`H` (after scaling): `pad = 10`; `x = max(0, rect.left - pad)`;
`y = max(0, rect.top - pad)`; `w = min(W - x, rect.width + 2*pad)`;
`h = min(H - y, rect.height + 2*pad)`. -/
def cropBox (W H : ℤ) (r : DmtxRect) : CropQuad :=
  ⟨max 0 (r.left - 10),
   max 0 (r.top - 10),
   min (W - max 0 (r.left - 10)) (r.width + 2 * 10),
   min (H - max 0 (r.top - 10)) (r.height + 2 * 10)⟩

/-- The box described by the spec's words: the symbol's bounding box expanded
by exactly 10 pixels on each side and clamped to the image bounds, i.e. the
intersection of `[left-10, left+width+10) x [top-10, top+height+10)` with
`[0, W) x [0, H)`. -/
def specPaddedBox (W H : ℤ) (r : DmtxRect) : CropQuad :=
  ⟨max 0 (r.left - 10),
   max 0 (r.top - 10),
   min W (r.left + r.width + 10) - max 0 (r.left - 10),
   min H (r.top + r.height + 10) - max 0 (r.top - 10)⟩

/-- One outward event of the worker: the `log_message`, `progress` and
`finished` signals of `MatrixProcessorThread`. -/
inductive Event where
  | log (msg : String)
  | progress (pct : ℕ)
  | finished
  deriving DecidableEq, Repr

/-- A file written by `cv2.imwrite`: its path and the buffer written. -/
structure Save where
  path : String
  buf : Buffer
  deriving DecidableEq, Repr

/-- Oracle data for one symbol returned by `pylibdmtx.decode`. -/
structure Symbol where
  /-- the decoded payload, `matrix.data.decode('utf-8')` -/
  payload : String
  /-- the bounding rectangle `matrix.rect` -/
  rect : DmtxRect
  /-- oracle: the per-symbol try body (lines 64-85: payload decoding, crop,
  `cv2.imwrite`) raises an exception -/
  saveFails : Bool
  deriving DecidableEq, Repr

/-- Oracle data for one input image of a batch run. -/
structure ImageCase where
  path : String
  /-- result of `cv2.imread` (line 40): `none` means unreadable (`img is
  None`); `some (w, h)` gives the pixel dimensions of the loaded image -/
  load : Option (ℕ × ℕ)
  /-- oracle: `os.makedirs` (line 55) raises an exception -/
  mkdirFails : Bool
  /-- result of `pylibdmtx.decode` on the preprocessed buffer (line 59) -/
  symbols : List Symbol
  deriving DecidableEq, Repr

/-- Lines 80-81: the output path `os.path.join(image_output_dir,
f"{safe_name}_{timestamp}.png")` where `image_output_dir` is
`os.path.join(output_dir, base_name)`. -/
def outPath (outputDir base data ts : String) : String :=
  outputDir ++ "/" ++ base ++ "/" ++ safe_name data ++ "_" ++ ts ++ ".png"

/-- The event emitted for one symbol (lines 63-88): a success log line, or, if
the per-symbol try body raises, the line-87 error log line. -/
def symbolEvent (base : String) (s : Symbol) : Event :=
  if s.saveFails then .log ("Error processing matrix in " ++ base ++ ": <exception>")
  else .log ("Saved matrix from " ++ base ++ ": " ++ s.payload)

/-- The files written for one symbol: the single cropped image (line 77 crops
`img`, the scaled color image, not the preprocessed buffer), or nothing if the
per-symbol try body raises. -/
def symbolSaves (outputDir ts base : String) (W H : ℤ) (img : Buffer) (s : Symbol) :
    List Save :=
  if s.saveFails then []
  else [⟨outPath outputDir base s.payload ts,
         .cropped img (cropBox W H s.rect).x (cropBox W H s.rect).y
           (cropBox W H s.rect).w (cropBox W H s.rect).h⟩]

/-- The outcome of one iteration of the `for` loop of
`MatrixProcessorThread.run`. -/
structure ImgStep where
  events : List Event
  saves : List Save
  /-- the binding of the Python local `base_name` after this iteration -/
  base : Option String
  /-- the load-failure `continue` (line 43) ran, skipping the line-95
  progress emit -/
  skipProgress : Bool
  /-- an exception escaped the line-92 handler: the handler's f-string
  dereferences `base_name`, which is unbound until line 53 has run once, so an
  exception raised before that turns into an uncaught `NameError` -/
  aborted : Bool
  deriving DecidableEq, Repr

/-- Line 95: `int((i + 1) / total_images * 100)`.  The two float operations
are modelled faithfully: the true division `(i+1)/total` is rounded to
binary64, the product with 100 is rounded again, and `int()` truncates (the
value is nonnegative, so truncation is the floor).  This reproduces CPython,
e.g. `imageProgress 100 28 = 28` (from `int(0.29 * 100) = 28`), where the
exact rational floor would give 29. -/
def imageProgress (total i : ℕ) : ℕ :=
  (pyInt (roundDouble (roundDouble (((i : ℚ) + 1) / (total : ℚ)) * 100))).toNat

/-- Lines 46-50: the dimension after optional rescaling.  `cv2.resize` is
bypassed exactly when `scale_factor != 1.0` is false, i.e. when the spinbox
value is 100; otherwise the target dimension is `int(dim * scale)`, modelled
with exact integer arithmetic.  The double evaluation
`int(dim * (scale/100.0))` can differ from this by one for nonzero values,
but agrees with it at the zero boundary — for every spinbox scale 25-99,
`int(dim * fl(scale/100))` is zero exactly when `dim * scale < 100` — which
is the only place the embedding's control flow (the resize-raises branch of
`processImage`) depends on it. -/
def scaledDim (scaleFactor d : ℕ) : ℕ :=
  if scaleFactor = 100 then d else d * scaleFactor / 100

/-- The buffer named `img` at line 77: the loaded color image, rescaled when
the scale factor is not 100%; never a preprocessed buffer. -/
def imgBuffer (scaleFactor : ℕ) (path : String) (w h : ℕ) : Buffer :=
  if scaleFactor = 100 then .original path else .scaled (.original path) w h

/-- One iteration of the loop body (lines 37-93) on image `c`, with
`base0` the binding of `base_name` before the iteration:
load (lines 40-43, `continue` on failure), optional rescale (lines 46-50,
where `cv2.resize` raises if a target dimension is `int(dim * scale) = 0`),
`base_name` assignment (line 53), `os.makedirs` (line 55), preprocessing and
decoding (lines 58-59), then the per-symbol loop or the no-matrices log.
An exception raised before line 53 ran for the first time (the rescale case)
reaches the line-92 handler while `base_name` is unbound: the handler's
f-string then raises `NameError`, aborting the worker. -/
def processImage (scaleFactor : ℕ) (outputDir ts : String) (base0 : Option String)
    (c : ImageCase) : ImgStep :=
  match c.load with
  | none => ⟨[.log ("Error loading image: " ++ c.path)], [], base0, true, false⟩
  | some (w0, h0) =>
      if scaleFactor ≠ 100 ∧ (w0 * scaleFactor / 100 = 0 ∨ h0 * scaleFactor / 100 = 0) then
        match base0 with
        | some bn => ⟨[.log ("Error processing " ++ bn ++ ": <exception>")], [],
                      base0, false, false⟩
        | none => ⟨[], [], none, false, true⟩
      else if c.mkdirFails then
        ⟨[.log ("Error processing " ++ baseNameOf c.path ++ ": <exception>")], [],
         some (baseNameOf c.path), false, false⟩
      else if c.symbols.isEmpty then
        ⟨[.log ("No matrices found in " ++ baseNameOf c.path)], [],
         some (baseNameOf c.path), false, false⟩
      else
        ⟨c.symbols.map (symbolEvent (baseNameOf c.path)),
         (c.symbols.map (symbolSaves outputDir ts (baseNameOf c.path)
            (scaledDim scaleFactor w0 : ℤ) (scaledDim scaleFactor h0 : ℤ)
            (imgBuffer scaleFactor c.path (scaledDim scaleFactor w0)
              (scaledDim scaleFactor h0)))).flatten,
         some (baseNameOf c.path), false, false⟩

/-- The result of the worker: the ordered event list, the files written, the
final `base_name` binding, and whether an uncaught exception aborted `run`. -/
structure RunResult where
  events : List Event
  saves : List Save
  baseEnd : Option String
  aborted : Bool
  deriving DecidableEq, Repr

/-- The loop of lines 37-95: `i` is the enumeration index of the first element
of `cs`, `total` is `total_images`, `b` the current `base_name` binding. -/
def runLoop (scaleFactor : ℕ) (outputDir ts : String) (total : ℕ) :
    ℕ → Option String → List ImageCase → RunResult
  | _, b, [] => ⟨[], [], b, false⟩
  | i, b, c :: rest =>
      let step := processImage scaleFactor outputDir ts b c
      if step.aborted then ⟨step.events, step.saves, step.base, true⟩
      else
        let prog : List Event :=
          if step.skipProgress then [] else [.progress (imageProgress total i)]
        let restRes := runLoop scaleFactor outputDir ts total (i + 1) step.base rest
        ⟨step.events ++ prog ++ restRes.events, step.saves ++ restRes.saves,
         restRes.baseEnd, restRes.aborted⟩

/-- `MatrixProcessorThread.run` (lines 35-97): the loop over the images, then
`self.finished.emit()` (line 97), which is not reached if the loop aborted. -/
def run (scaleFactor : ℕ) (outputDir ts : String) (images : List ImageCase) :
    RunResult :=
  let r := runLoop scaleFactor outputDir ts images.length 0 none images
  if r.aborted then r else ⟨r.events ++ [.finished], r.saves, r.baseEnd, false⟩

/-- The events of one loop iteration in emission order: the iteration's log
lines (lines 42, 84-85, 87-88, 90, 93) followed by its progress event
(line 95), which is absent exactly on the load-failure `continue` path. -/
def imageBlock (scaleFactor : ℕ) (outputDir ts : String) (total i : ℕ)
    (b : Option String) (c : ImageCase) : List Event :=
  (processImage scaleFactor outputDir ts b c).events ++
    (if (processImage scaleFactor outputDir ts b c).skipProgress then []
     else [.progress (imageProgress total i)])

/-- The per-image event blocks of a loop run, one block per image in image
order, with the `base_name` binding threaded exactly as `runLoop` threads it.
For a non-aborting run, `runLoop`'s event list is the concatenation of these
blocks. -/
def runBlocks (scaleFactor : ℕ) (outputDir ts : String) (total : ℕ) :
    ℕ → Option String → List ImageCase → List (List Event)
  | _, _, [] => []
  | i, b, c :: rest =>
      imageBlock scaleFactor outputDir ts total i b c ::
        runBlocks scaleFactor outputDir ts total (i + 1)
          (processImage scaleFactor outputDir ts b c).base rest

/-- The payloads of the progress events of an event list, in emission order. -/
def progressPayloads (evs : List Event) : List ℕ :=
  evs.filterMap (fun e => match e with | .progress n => some n | _ => none)

/-- The number of `finished` events in an event list. -/
def countFinished (evs : List Event) : ℕ :=
  (evs.filter (fun e => match e with | .finished => true | _ => false)).length

/-- A block of events that is a run of log lines followed by at most one
progress event: the shape of the events of one loop iteration. -/
def LogsThenProgress (blk : List Event) : Prop :=
  ∃ logs tail, blk = logs ++ tail ∧ (∀ e ∈ logs, ∃ m, e = Event.log m) ∧
    (tail = [] ∨ ∃ v, tail = [Event.progress v])

/-- The spec's description of the selection: the axis-aligned bounding box of
the two drag points. -/
def specBoundingBox (s e : PointF) : SelRect :=
  ⟨min s.x e.x, min s.y e.y, max s.x e.x - min s.x e.x, max s.y e.y - min s.y e.y⟩

/-- A concrete batch input used to exercise the worker on an image containing
one Data Matrix symbol. -/
def witnessImage : ImageCase := ⟨"w.png", some (50, 50), false, [⟨"AB", ⟨12, 12, 5, 5⟩, false⟩]⟩

/-- The file the worker writes for `witnessImage` at scale 100% with output
root "ow" and timestamp "tw". -/
def witnessSave : Save := ⟨"ow/w/AB_tw.png", .cropped (.original "w.png") 2 2 25 25⟩

/-- A concrete batch input with one readable image containing one symbol,
used to exercise a complete non-aborting run. -/
def symbolCase : ImageCase := ⟨"s.png", some (30, 30), false, [⟨"AB", ⟨12, 12, 5, 5⟩, false⟩]⟩

/-! ### Helper lemmas about the worker embedding -/

theorem symbolEvent_is_log (base : String) (s : Symbol) :
    ∃ m, symbolEvent base s = Event.log m := by
  unfold symbolEvent
  split <;> exact ⟨_, rfl⟩

/-- Every event emitted inside one loop iteration is a log line (the progress
emit of line 95 happens after the try/except, in `runLoop`). -/
theorem processImage_events_log (sf : ℕ) (o ts : String) (b : Option String)
    (c : ImageCase) : ∀ e ∈ (processImage sf o ts b c).events, ∃ m, e = Event.log m := by
  intro e he
  unfold processImage at he
  split at he
  · simp only [List.mem_singleton] at he
    exact ⟨_, he⟩
  · split at he
    · split at he
      · simp only [List.mem_singleton] at he
        exact ⟨_, he⟩
      · simp at he
    · split at he
      · simp only [List.mem_singleton] at he
        exact ⟨_, he⟩
      · split at he
        · simp only [List.mem_singleton] at he
          exact ⟨_, he⟩
        · simp only [List.mem_map] at he
          obtain ⟨s, -, rfl⟩ := he
          exact symbolEvent_is_log _ s

theorem processImage_no_progress (sf : ℕ) (o ts : String) (b : Option String)
    (c : ImageCase) : progressPayloads (processImage sf o ts b c).events = [] := by
  refine List.filterMap_eq_nil_iff.mpr ?_
  intro e he
  obtain ⟨m, rfl⟩ := processImage_events_log sf o ts b c e he
  rfl

/-- The `continue` of line 43 runs exactly on the image-load failure path. -/
theorem processImage_skip (sf : ℕ) (o ts : String) (b : Option String)
    (c : ImageCase) : (processImage sf o ts b c).skipProgress = c.load.isNone := by
  unfold processImage
  rcases hl : c.load with - | ⟨w0, h0⟩ <;> simp only [hl, Option.isNone]
  split
  · split <;> rfl
  · split
    · rfl
    · split <;> rfl

/-- Every file the worker writes in one iteration is a crop taken from a
buffer that is not an output of the preprocessing pipeline. -/
theorem processImage_saves_crop (sf : ℕ) (o ts : String) (b : Option String)
    (c : ImageCase) : ∀ s ∈ (processImage sf o ts b c).saves,
      ∃ q x y w h, s.buf = Buffer.cropped q x y w h ∧ q.isPreprocessed = false := by
  intro s hs
  unfold processImage at hs
  split at hs
  · simp at hs
  · split at hs
    · split at hs <;> simp at hs
    · split at hs
      · simp at hs
      · split at hs
        · simp at hs
        · simp only [List.mem_flatten, List.mem_map] at hs
          obtain ⟨l, ⟨sym, -, rfl⟩, hmem⟩ := hs
          unfold symbolSaves at hmem
          split at hmem
          · simp at hmem
          · simp only [List.mem_singleton] at hmem
            subst hmem
            refine ⟨_, _, _, _, _, rfl, ?_⟩
            unfold imgBuffer
            split <;> rfl

/-- Unfolding of `runLoop` on a cons cell. -/
theorem runLoop_cons (sf : ℕ) (o ts : String) (total i : ℕ) (b : Option String)
    (c : ImageCase) (rest : List ImageCase) :
    runLoop sf o ts total i b (c :: rest) =
      if (processImage sf o ts b c).aborted then
        ⟨(processImage sf o ts b c).events, (processImage sf o ts b c).saves,
         (processImage sf o ts b c).base, true⟩
      else
        ⟨(processImage sf o ts b c).events ++
           (if (processImage sf o ts b c).skipProgress then []
            else [.progress (imageProgress total i)]) ++
           (runLoop sf o ts total (i + 1) (processImage sf o ts b c).base rest).events,
         (processImage sf o ts b c).saves ++
           (runLoop sf o ts total (i + 1) (processImage sf o ts b c).base rest).saves,
         (runLoop sf o ts total (i + 1) (processImage sf o ts b c).base rest).baseEnd,
         (runLoop sf o ts total (i + 1) (processImage sf o ts b c).base rest).aborted⟩ := rfl

theorem rne_floor_le (m : ℚ) : ⌊m⌋ ≤ rne m := by
  unfold rne
  split
  · exact le_refl _
  · split
    · omega
    · split <;> omega

theorem rne_le_floor_add_one (m : ℚ) : rne m ≤ ⌊m⌋ + 1 := by
  unfold rne
  split
  · omega
  · split
    · omega
    · split <;> omega

theorem rne_cast_le (m : ℚ) : (rne m : ℚ) ≤ m + 1 / 2 := by
  unfold rne
  split
  next h =>
    have hf := Int.floor_le m
    linarith
  next h =>
    split
    next h2 =>
      push_cast
      linarith [Int.floor_le m, le_of_not_lt h]
    next h2 =>
      have h3 : m - (⌊m⌋ : ℚ) = 1 / 2 := le_antisymm (le_of_not_lt h2) (le_of_not_lt h)
      split
      · linarith
      · push_cast
        linarith

theorem le_rne_cast (m : ℚ) : m - 1 / 2 ≤ (rne m : ℚ) := by
  unfold rne
  split
  next h => linarith
  next h =>
    split
    next h2 =>
      push_cast
      linarith [Int.lt_floor_add_one m]
    next h2 =>
      have h3 : m - (⌊m⌋ : ℚ) = 1 / 2 := le_antisymm (le_of_not_lt h2) (le_of_not_lt h)
      split
      · linarith
      · push_cast
        linarith

theorem half_le_of_rne_ne_floor {m : ℚ} (h : rne m ≠ ⌊m⌋) : 1 / 2 ≤ m - ⌊m⌋ := by
  unfold rne at h
  split at h
  · exact absurd rfl h
  · next hnot => exact le_of_not_lt hnot

theorem le_half_of_rne_ne_floor_add_one {m : ℚ} (h : rne m ≠ ⌊m⌋ + 1) :
    m - ⌊m⌋ ≤ 1 / 2 := by
  unfold rne at h
  split at h
  next h1 => exact le_of_lt h1
  next h1 =>
    split at h
    · exact absurd rfl h
    · next h2 => exact le_of_not_lt h2

theorem rne_tie {m : ℚ} (h : m - ⌊m⌋ = 1 / 2) :
    rne m = if ⌊m⌋ % 2 = 0 then ⌊m⌋ else ⌊m⌋ + 1 := by
  unfold rne
  rw [if_neg (by rw [h]; norm_num), if_neg (by rw [h]; norm_num)]

theorem rne_mono {m1 m2 : ℚ} (h : m1 ≤ m2) : rne m1 ≤ rne m2 := by
  rcases lt_or_eq_of_le (Int.floor_mono h) with hf | hf
  · have h1 := rne_le_floor_add_one m1
    have h2 := rne_floor_le m2
    omega
  · by_contra hcon
    push_neg at hcon
    have l1 := rne_floor_le m1
    have l2 := rne_le_floor_add_one m1
    have l3 := rne_floor_le m2
    have l4 := rne_le_floor_add_one m2
    have e1 : rne m1 = ⌊m1⌋ + 1 := by omega
    have e2 : rne m2 = ⌊m2⌋ := by omega
    have f1 : 1 / 2 ≤ m1 - ⌊m1⌋ := half_le_of_rne_ne_floor (by omega)
    have f2 : m2 - ⌊m2⌋ ≤ 1 / 2 := le_half_of_rne_ne_floor_add_one (by omega)
    have hfq : ((⌊m1⌋ : ℤ) : ℚ) = ((⌊m2⌋ : ℤ) : ℚ) := by rw [hf]
    have t1 : m1 - (⌊m1⌋ : ℚ) = 1 / 2 := by linarith
    have t2 : m2 - (⌊m2⌋ : ℚ) = 1 / 2 := by linarith
    have g1 := rne_tie t1
    have g2 := rne_tie t2
    rw [hf] at g1
    rw [g1, g2] at hcon
    omega

theorem log2fuel_bounds : ∀ (fuel n : ℕ), n ≤ fuel → n ≠ 0 →
    2 ^ log2fuel fuel n ≤ n ∧ n < 2 ^ (log2fuel fuel n + 1) := by
  intro fuel
  induction fuel with
  | zero => intro n h1 h2; omega
  | succ f ih =>
      intro n h1 h2
      show 2 ^ (if 2 ≤ n then log2fuel f (n / 2) + 1 else 0) ≤ n ∧
        n < 2 ^ ((if 2 ≤ n then log2fuel f (n / 2) + 1 else 0) + 1)
      split
      next h3 =>
        have hrec := ih (n / 2) (by omega) (by omega)
        have e1 : (2 : ℕ) ^ (log2fuel f (n / 2) + 1) = 2 * 2 ^ log2fuel f (n / 2) := by
          rw [pow_succ]
          ring
        have e2 : (2 : ℕ) ^ (log2fuel f (n / 2) + 1 + 1) =
            2 * 2 ^ (log2fuel f (n / 2) + 1) := by
          rw [pow_succ]
          ring
        omega
      next h3 =>
        have : n = 1 := by omega
        rw [this]
        norm_num

theorem nlog2_bounds {n : ℕ} (h : n ≠ 0) : 2 ^ nlog2 n ≤ n ∧ n < 2 ^ (nlog2 n + 1) :=
  log2fuel_bounds n n (le_refl n) h

theorem ilog2q_spec {q : ℚ} (hq : 0 < q) :
    (2 : ℚ) ^ ilog2q q ≤ q ∧ q < 2 ^ (ilog2q q + 1) := by
  have hnum : 0 < q.num := Rat.num_pos.mpr hq
  have haZ : (q.num.toNat : ℤ) = q.num := Int.toNat_of_nonneg hnum.le
  have ha0 : q.num.toNat ≠ 0 := by omega
  have hb0 : q.den ≠ 0 := (Rat.den_pos q).ne'
  have hdq : (0 : ℚ) < (q.den : ℚ) := by exact_mod_cast Rat.den_pos q
  have hq_eq : q = (q.num.toNat : ℚ) / (q.den : ℚ) := by
    have h1 : ((q.num.toNat : ℤ) : ℚ) = (q.num : ℚ) := by exact_mod_cast haZ
    push_cast at h1
    rw [h1]
    exact (Rat.num_div_den q).symm
  have hA1q : (2 : ℚ) ^ (nlog2 q.num.toNat) ≤ (q.num.toNat : ℚ) := by
    exact_mod_cast (nlog2_bounds ha0).1
  have hA2q : (q.num.toNat : ℚ) < 2 ^ (nlog2 q.num.toNat + 1) := by
    exact_mod_cast (nlog2_bounds ha0).2
  have hB1q : (2 : ℚ) ^ (nlog2 q.den) ≤ (q.den : ℚ) := by
    exact_mod_cast (nlog2_bounds hb0).1
  have hB2q : (q.den : ℚ) < 2 ^ (nlog2 q.den + 1) := by
    exact_mod_cast (nlog2_bounds hb0).2
  have key_low : (2 : ℚ) ^ ((nlog2 q.num.toNat : ℤ) - (nlog2 q.den : ℤ) - 1) < q := by
    have s1 : (2 : ℚ) ^ (nlog2 q.num.toNat) / 2 ^ (nlog2 q.den + 1) <
        (2 : ℚ) ^ (nlog2 q.num.toNat) / (q.den : ℚ) :=
      div_lt_div_of_pos_left (by positivity) hdq hB2q
    have s2 : (2 : ℚ) ^ (nlog2 q.num.toNat) / (q.den : ℚ) ≤
        (q.num.toNat : ℚ) / (q.den : ℚ) :=
      (div_le_div_iff_of_pos_right hdq).mpr hA1q
    calc (2 : ℚ) ^ ((nlog2 q.num.toNat : ℤ) - (nlog2 q.den : ℤ) - 1)
        = (2 : ℚ) ^ (nlog2 q.num.toNat) / 2 ^ (nlog2 q.den + 1) := by
          rw [show ((nlog2 q.num.toNat : ℤ) - (nlog2 q.den : ℤ) - 1) =
            ((nlog2 q.num.toNat : ℤ) - ((nlog2 q.den + 1 : ℕ) : ℤ)) by push_cast; ring]
          rw [zpow_sub₀ (by norm_num : (2 : ℚ) ≠ 0), zpow_natCast, zpow_natCast]
      _ < (2 : ℚ) ^ (nlog2 q.num.toNat) / (q.den : ℚ) := s1
      _ ≤ (q.num.toNat : ℚ) / (q.den : ℚ) := s2
      _ = q := hq_eq.symm
  have key_up : q < (2 : ℚ) ^ ((nlog2 q.num.toNat : ℤ) - (nlog2 q.den : ℤ) + 1) := by
    have s1 : (q.num.toNat : ℚ) / (q.den : ℚ) <
        (2 : ℚ) ^ (nlog2 q.num.toNat + 1) / (q.den : ℚ) :=
      (div_lt_div_iff_of_pos_right hdq).mpr hA2q
    have s2 : (2 : ℚ) ^ (nlog2 q.num.toNat + 1) / (q.den : ℚ) ≤
        (2 : ℚ) ^ (nlog2 q.num.toNat + 1) / 2 ^ (nlog2 q.den) :=
      div_le_div_of_nonneg_left (by positivity) (by positivity) hB1q
    calc q = (q.num.toNat : ℚ) / (q.den : ℚ) := hq_eq
      _ < (2 : ℚ) ^ (nlog2 q.num.toNat + 1) / (q.den : ℚ) := s1
      _ ≤ (2 : ℚ) ^ (nlog2 q.num.toNat + 1) / 2 ^ (nlog2 q.den) := s2
      _ = (2 : ℚ) ^ ((nlog2 q.num.toNat : ℤ) - (nlog2 q.den : ℤ) + 1) := by
          rw [show ((nlog2 q.num.toNat : ℤ) - (nlog2 q.den : ℤ) + 1) =
            (((nlog2 q.num.toNat + 1 : ℕ) : ℤ) - ((nlog2 q.den : ℕ) : ℤ)) by push_cast; ring]
          rw [zpow_sub₀ (by norm_num : (2 : ℚ) ≠ 0), zpow_natCast, zpow_natCast]
  show (2 : ℚ) ^ ilog2q q ≤ q ∧ q < 2 ^ (ilog2q q + 1)
  rw [show ilog2q q = (if q < 2 ^ ((nlog2 q.num.toNat : ℤ) - (nlog2 q.den : ℤ))
      then (nlog2 q.num.toNat : ℤ) - (nlog2 q.den : ℤ) - 1
      else (nlog2 q.num.toNat : ℤ) - (nlog2 q.den : ℤ)) from rfl]
  split
  next hlt =>
    constructor
    · exact le_of_lt key_low
    · rw [show ((nlog2 q.num.toNat : ℤ) - (nlog2 q.den : ℤ) - 1 + 1) =
        ((nlog2 q.num.toNat : ℤ) - (nlog2 q.den : ℤ)) by ring]
      exact hlt
  next hge =>
    exact ⟨le_of_not_lt hge, key_up⟩

theorem ilog2q_mono {q1 q2 : ℚ} (h1 : 0 < q1) (h : q1 ≤ q2) :
    ilog2q q1 ≤ ilog2q q2 := by
  have h2 : 0 < q2 := lt_of_lt_of_le h1 h
  have s1 := ilog2q_spec h1
  have s2 := ilog2q_spec h2
  have hp : (2 : ℚ) ^ ilog2q q1 < 2 ^ (ilog2q q2 + 1) :=
    lt_of_le_of_lt (le_trans s1.1 h) s2.2
  have := (zpow_lt_zpow_iff_right₀ (by norm_num : (1 : ℚ) < 2)).mp hp
  omega

theorem roundDouble_bounds {q : ℚ} (hq : 0 < q) :
    (2 : ℚ) ^ ilog2q q ≤ roundDouble q ∧ roundDouble q ≤ 2 ^ (ilog2q q + 1) := by
  have hs := ilog2q_spec hq
  have hu : (0 : ℚ) < 2 ^ (ilog2q q - 52) := zpow_pos (by norm_num) _
  have hm1 : (2 : ℚ) ^ (52 : ℤ) ≤ q / 2 ^ (ilog2q q - 52) := by
    have := (div_le_div_iff_of_pos_right hu).mpr hs.1
    calc (2 : ℚ) ^ (52 : ℤ) = 2 ^ ilog2q q / 2 ^ (ilog2q q - 52) := by
          rw [← zpow_sub₀ (by norm_num : (2 : ℚ) ≠ 0)]
          congr 1
          ring
      _ ≤ q / 2 ^ (ilog2q q - 52) := this
  have hm2 : q / 2 ^ (ilog2q q - 52) < (2 : ℚ) ^ (53 : ℤ) := by
    have := (div_lt_div_iff_of_pos_right hu).mpr hs.2
    calc q / 2 ^ (ilog2q q - 52) < 2 ^ (ilog2q q + 1) / 2 ^ (ilog2q q - 52) := this
      _ = (2 : ℚ) ^ (53 : ℤ) := by
          rw [← zpow_sub₀ (by norm_num : (2 : ℚ) ≠ 0)]
          congr 1
          ring
  have hc52 : ((2 ^ 52 : ℤ) : ℚ) = (2 : ℚ) ^ (52 : ℤ) := by
    push_cast
    rw [show ((52 : ℤ)) = ((52 : ℕ) : ℤ) from rfl, zpow_natCast]
    norm_num
  have hc53 : ((2 ^ 53 : ℤ) : ℚ) = (2 : ℚ) ^ (53 : ℤ) := by
    push_cast
    rw [show ((53 : ℤ)) = ((53 : ℕ) : ℤ) from rfl, zpow_natCast]
    norm_num
  have hrlo : (2 ^ 52 : ℤ) ≤ rne (q / 2 ^ (ilog2q q - 52)) := by
    have h1 := le_rne_cast (q / 2 ^ (ilog2q q - 52))
    have h2 : ((2 ^ 52 - 1 : ℤ) : ℚ) < (rne (q / 2 ^ (ilog2q q - 52)) : ℚ) := by
      push_cast
      push_cast at hc52
      linarith
    have := Int.cast_lt.mp h2
    omega
  have hrhi : rne (q / 2 ^ (ilog2q q - 52)) ≤ 2 ^ 53 := by
    have h1 := rne_cast_le (q / 2 ^ (ilog2q q - 52))
    have h2 : (rne (q / 2 ^ (ilog2q q - 52)) : ℚ) < ((2 ^ 53 + 1 : ℤ) : ℚ) := by
      push_cast
      push_cast at hc53
      linarith
    have := Int.cast_lt.mp h2
    omega
  rw [roundDouble, if_neg (not_le.mpr hq)]
  constructor
  · calc (2 : ℚ) ^ ilog2q q
        = (2 : ℚ) ^ (52 : ℤ) * 2 ^ (ilog2q q - 52) := by
          rw [← zpow_add₀ (by norm_num : (2 : ℚ) ≠ 0)]
          congr 1
          ring
      _ ≤ (rne (q / 2 ^ (ilog2q q - 52)) : ℚ) * 2 ^ (ilog2q q - 52) := by
          apply mul_le_mul_of_nonneg_right _ (le_of_lt hu)
          rw [← hc52]
          exact_mod_cast hrlo
  · calc (rne (q / 2 ^ (ilog2q q - 52)) : ℚ) * 2 ^ (ilog2q q - 52)
        ≤ (2 : ℚ) ^ (53 : ℤ) * 2 ^ (ilog2q q - 52) := by
          apply mul_le_mul_of_nonneg_right _ (le_of_lt hu)
          rw [← hc53]
          exact_mod_cast hrhi
      _ = 2 ^ (ilog2q q + 1) := by
          rw [← zpow_add₀ (by norm_num : (2 : ℚ) ≠ 0)]
          congr 1
          ring

theorem roundDouble_mono {q1 q2 : ℚ} (h : q1 ≤ q2) :
    roundDouble q1 ≤ roundDouble q2 := by
  by_cases h1 : q1 ≤ 0
  · rw [roundDouble, if_pos h1]
    by_cases h2 : q2 ≤ 0
    · rw [roundDouble, if_pos h2]
    · have h2' : 0 < q2 := lt_of_not_le h2
      calc (0 : ℚ) ≤ 2 ^ ilog2q q2 := le_of_lt (zpow_pos (by norm_num) _)
        _ ≤ roundDouble q2 := (roundDouble_bounds h2').1
  · have h1' : 0 < q1 := lt_of_not_le h1
    have h2' : 0 < q2 := lt_of_lt_of_le h1' h
    rcases eq_or_lt_of_le (ilog2q_mono h1' h) with heq | hlt
    · rw [roundDouble, roundDouble, if_neg (not_le.mpr h1'), if_neg (not_le.mpr h2'), ← heq]
      have hu : (0 : ℚ) < 2 ^ (ilog2q q1 - 52) := zpow_pos (by norm_num) _
      have hm : q1 / 2 ^ (ilog2q q1 - 52) ≤ q2 / 2 ^ (ilog2q q1 - 52) :=
        (div_le_div_iff_of_pos_right hu).mpr h
      exact mul_le_mul_of_nonneg_right (by exact_mod_cast rne_mono hm) (le_of_lt hu)
    · calc roundDouble q1 ≤ 2 ^ (ilog2q q1 + 1) := (roundDouble_bounds h1').2
        _ ≤ 2 ^ ilog2q q2 := zpow_le_zpow_right₀ (by norm_num) (by omega)
        _ ≤ roundDouble q2 := (roundDouble_bounds h2').1

theorem pyInt_mono {q1 q2 : ℚ} (h : q1 ≤ q2) : pyInt q1 ≤ pyInt q2 := by
  unfold pyInt
  split
  next h1 =>
    rw [if_pos (le_trans h1 h)]
    exact Int.floor_mono h
  next h1 =>
    split
    next h2 =>
      calc ⌈q1⌉ ≤ 0 := Int.ceil_le.mpr (by exact_mod_cast le_of_not_le h1)
        _ ≤ ⌊q2⌋ := Int.floor_nonneg.mpr h2
    next h2 => exact Int.ceil_mono h

theorem imageProgress_mono (total : ℕ) {i j : ℕ} (h : i ≤ j) :
    imageProgress total i ≤ imageProgress total j := by
  unfold imageProgress
  apply Int.toNat_le_toNat
  apply pyInt_mono
  apply roundDouble_mono
  apply mul_le_mul_of_nonneg_right _ (by norm_num : (0 : ℚ) ≤ 100)
  apply roundDouble_mono
  rcases Nat.eq_zero_or_pos total with h0 | h0
  · rw [h0]
    push_cast
    simp
  · have htq : (0 : ℚ) < total := by exact_mod_cast h0
    rw [div_le_div_iff_of_pos_right htq]
    have : (i : ℚ) ≤ j := by exact_mod_cast h
    linarith

theorem roundDouble_one : roundDouble 1 = 1 := by with_unfolding_all decide

theorem roundDouble_hundred : roundDouble 100 = 100 := by with_unfolding_all decide

/-- The progress value of the last image of a batch is exactly 100: the float
quotient `total/total` is exactly 1.0 and `1.0 * 100` is exactly 100.0. -/
theorem imageProgress_last (n : ℕ) : imageProgress (n + 1) n = 100 := by
  unfold imageProgress
  have hq : ((n : ℚ) + 1) / ((n + 1 : ℕ) : ℚ) = 1 := by
    push_cast
    rw [div_self]
    positivity
  rw [hq, roundDouble_one, one_mul, roundDouble_hundred]
  with_unfolding_all decide

theorem progressPayloads_append (l1 l2 : List Event) :
    progressPayloads (l1 ++ l2) = progressPayloads l1 ++ progressPayloads l2 := by
  simp [progressPayloads]

/-- All progress values a loop suffix emits are at least the value belonging
to its first index, and they are emitted in non-decreasing order. -/
theorem runLoop_progress_chain (sf : ℕ) (o ts : String) (total : ℕ)
    (cs : List ImageCase) : ∀ (i : ℕ) (b : Option String),
    List.Chain' (· ≤ ·) (progressPayloads (runLoop sf o ts total i b cs).events) ∧
      ∀ v ∈ progressPayloads (runLoop sf o ts total i b cs).events,
        imageProgress total i ≤ v := by
  induction cs with
  | nil =>
      intro i b
      simp [runLoop, progressPayloads]
  | cons c rest ih =>
      intro i b
      rw [runLoop_cons]
      by_cases hab : (processImage sf o ts b c).aborted = true
      · rw [if_pos hab]
        dsimp only
        rw [processImage_no_progress]
        simp
      · rw [if_neg hab]
        dsimp only
        rw [progressPayloads_append, progressPayloads_append,
          processImage_no_progress, List.nil_append]
        have hrest := ih (i + 1) (processImage sf o ts b c).base
        by_cases hskip : (processImage sf o ts b c).skipProgress = true
        · rw [if_pos hskip]
          show List.Chain' (· ≤ ·) (progressPayloads [] ++ _) ∧ _
          rw [progressPayloads]
          simp only [List.filterMap_nil, List.nil_append]
          exact ⟨hrest.1, fun v hv =>
            le_trans (imageProgress_mono total (Nat.le_succ i)) (hrest.2 v hv)⟩
        · rw [if_neg hskip]
          have hone : progressPayloads [Event.progress (imageProgress total i)] =
              [imageProgress total i] := rfl
          rw [hone, List.singleton_append]
          constructor
          · rw [List.chain'_cons']
            refine ⟨fun v hv => ?_, hrest.1⟩
            exact le_trans (imageProgress_mono total (Nat.le_succ i))
              (hrest.2 v (List.mem_of_mem_head? hv))
          · intro v hv
            rcases List.mem_cons.mp hv with rfl | hv
            · exact le_rfl
            · exact le_trans (imageProgress_mono total (Nat.le_succ i)) (hrest.2 v hv)

theorem LogsThenProgress.no_finished {blk : List Event} (h : LogsThenProgress blk) :
    countFinished blk = 0 := by
  obtain ⟨logs, tail, rfl, hlogs, htail⟩ := h
  unfold countFinished
  rw [List.filter_append, List.length_append]
  have h1 : (logs.filter (fun e => match e with | .finished => true | _ => false)) = [] := by
    refine List.filter_eq_nil_iff.mpr ?_
    intro e he
    obtain ⟨m, rfl⟩ := hlogs e he
    simp
  have h2 : (tail.filter (fun e => match e with | .finished => true | _ => false)) = [] := by
    rcases htail with rfl | ⟨v, rfl⟩ <;> simp
  rw [h1, h2]
  rfl

/-- There is one block per image, in image order. -/
theorem runBlocks_length (sf : ℕ) (o ts : String) (total : ℕ)
    (cs : List ImageCase) : ∀ (i : ℕ) (b : Option String),
    (runBlocks sf o ts total i b cs).length = cs.length := by
  induction cs with
  | nil => intro i b; rfl
  | cons c rest ih =>
      intro i b
      show (imageBlock sf o ts total i b c ::
        runBlocks sf o ts total (i + 1) (processImage sf o ts b c).base rest).length =
          (c :: rest).length
      rw [List.length_cons, List.length_cons, ih]

/-- Each per-image block is that image's log lines followed by at most one
progress event: within one image, every log line precedes the image's
progress update. -/
theorem runBlocks_logsThenProgress (sf : ℕ) (o ts : String) (total : ℕ)
    (cs : List ImageCase) : ∀ (i : ℕ) (b : Option String),
    ∀ blk ∈ runBlocks sf o ts total i b cs, LogsThenProgress blk := by
  induction cs with
  | nil =>
      intro i b blk hblk
      simp [runBlocks] at hblk
  | cons c rest ih =>
      intro i b blk hblk
      rcases List.mem_cons.mp hblk with rfl | hblk
      · refine ⟨(processImage sf o ts b c).events, _, rfl,
          processImage_events_log sf o ts b c, ?_⟩
        split
        · exact Or.inl rfl
        · exact Or.inr ⟨_, rfl⟩
      · exact ih (i + 1) (processImage sf o ts b c).base blk hblk

/-- When no iteration aborts, the loop's event list is exactly the
concatenation of the per-image blocks. -/
theorem runLoop_events_eq_blocks (sf : ℕ) (o ts : String) (total : ℕ)
    (cs : List ImageCase) : ∀ (i : ℕ) (b : Option String),
    (runLoop sf o ts total i b cs).aborted = false →
    (runLoop sf o ts total i b cs).events =
      (runBlocks sf o ts total i b cs).flatten := by
  induction cs with
  | nil => intro i b h; rfl
  | cons c rest ih =>
      intro i b hab
      rw [runLoop_cons] at hab ⊢
      by_cases hst : (processImage sf o ts b c).aborted
      · rw [if_pos hst] at hab
        simp at hab
      · rw [if_neg hst] at hab ⊢
        dsimp only at hab ⊢
        rw [ih (i + 1) (processImage sf o ts b c).base hab]
        show (processImage sf o ts b c).events ++ _ ++ _ =
          (imageBlock sf o ts total i b c ::
            runBlocks sf o ts total (i + 1) (processImage sf o ts b c).base rest).flatten
        rw [List.flatten_cons, imageBlock, List.append_assoc]

/-- Composition of the loop over an appended list.  If the first part aborts,
the second is never reached; otherwise the results concatenate, with the
enumeration index advanced by the length of the first part. -/
theorem runLoop_append (sf : ℕ) (o ts : String) (total : ℕ)
    (l1 l2 : List ImageCase) : ∀ (i : ℕ) (b : Option String),
    runLoop sf o ts total i b (l1 ++ l2) =
      if (runLoop sf o ts total i b l1).aborted then runLoop sf o ts total i b l1
      else
        ⟨(runLoop sf o ts total i b l1).events ++
           (runLoop sf o ts total (i + l1.length)
             (runLoop sf o ts total i b l1).baseEnd l2).events,
         (runLoop sf o ts total i b l1).saves ++
           (runLoop sf o ts total (i + l1.length)
             (runLoop sf o ts total i b l1).baseEnd l2).saves,
         (runLoop sf o ts total (i + l1.length)
           (runLoop sf o ts total i b l1).baseEnd l2).baseEnd,
         (runLoop sf o ts total (i + l1.length)
           (runLoop sf o ts total i b l1).baseEnd l2).aborted⟩ := by
  induction l1 with
  | nil =>
      intro i b
      simp [runLoop]
  | cons c rest ih =>
      intro i b
      rw [List.cons_append, runLoop_cons, runLoop_cons]
      by_cases hst : (processImage sf o ts b c).aborted
      · rw [if_pos hst, if_pos hst]
        simp
      · rw [if_neg hst, if_neg hst]
        rw [ih (i + 1) (processImage sf o ts b c).base]
        by_cases hab : (runLoop sf o ts total (i + 1) (processImage sf o ts b c).base rest).aborted
        · rw [if_pos hab]
          simp only [hab, if_true]
        · rw [if_neg hab]
          simp only [hab, if_false]
          simp only [List.length_cons]
          have harith : i + 1 + rest.length = i + (rest.length + 1) := by omega
          rw [harith]
          simp [List.append_assoc]

/-- Unfolding of `run` in terms of the loop. -/
theorem run_eq (sf : ℕ) (o ts : String) (images : List ImageCase) :
    run sf o ts images =
      if (runLoop sf o ts images.length 0 none images).aborted then
        runLoop sf o ts images.length 0 none images
      else
        ⟨(runLoop sf o ts images.length 0 none images).events ++ [.finished],
         (runLoop sf o ts images.length 0 none images).saves,
         (runLoop sf o ts images.length 0 none images).baseEnd, false⟩ := rfl

theorem countFinished_append (l1 l2 : List Event) :
    countFinished (l1 ++ l2) = countFinished l1 + countFinished l2 := by
  simp [countFinished, List.filter_append]

theorem countFinished_flatten_zero (blocks : List (List Event))
    (h : ∀ blk ∈ blocks, LogsThenProgress blk) :
    countFinished blocks.flatten = 0 := by
  induction blocks with
  | nil => rfl
  | cons blk rest ih =>
      rw [List.flatten_cons, countFinished_append,
        (h blk (List.mem_cons_self blk rest)).no_finished,
        ih (fun b hb => h b (List.mem_cons_of_mem blk hb))]

/-- Every file the loop writes is a crop taken from a buffer that is not an
output of the preprocessing pipeline. -/
theorem runLoop_saves_crop (sf : ℕ) (o ts : String) (total : ℕ)
    (cs : List ImageCase) : ∀ (i : ℕ) (b : Option String),
    ∀ s ∈ (runLoop sf o ts total i b cs).saves,
      ∃ q x y w h, s.buf = Buffer.cropped q x y w h ∧ q.isPreprocessed = false := by
  induction cs with
  | nil =>
      intro i b s hs
      simp [runLoop] at hs
  | cons c rest ih =>
      intro i b s hs
      rw [runLoop_cons] at hs
      by_cases hab : (processImage sf o ts b c).aborted = true
      · rw [if_pos hab] at hs
        exact processImage_saves_crop sf o ts b c s hs
      · rw [if_neg hab] at hs
        dsimp only at hs
        rcases List.mem_append.mp hs with hs | hs
        · exact processImage_saves_crop sf o ts b c s hs
        · exact ih (i + 1) (processImage sf o ts b c).base s hs

/-! ### The claims -/

/-- C6: for all drag gestures with start point `s` and end point `e`, the
selection rectangle computed by `update_selection` equals the axis-aligned
bounding box of `s` and `e`, and is invariant under swapping `s` and `e`. -/
theorem c6_selection_bbox (s e : PointF) :
    update_selection s e = specBoundingBox s e ∧
      update_selection s e = update_selection e s := by
  constructor
  · simp [update_selection, specBoundingBox, max_sub_min_eq_abs, abs_sub_comm]
  · simp [update_selection, min_comm, abs_sub_comm]

/-- C7: the sanitized filename stem replaces every non-alphanumeric character
one-for-one with an underscore, so it has the same length as the payload, and
the payload "Hello, World!" yields the stem "Hello__World_". -/
theorem c7_sanitize_filename :
    safe_name "Hello, World!" = "Hello__World_" ∧
      ∀ data : String, (safe_name data).data = data.data.map sanitizeChar ∧
        (safe_name data).length = data.length := by
  refine ⟨rfl, fun data => ⟨rfl, ?_⟩⟩
  show (String.mk (data.data.map sanitizeChar)).data.length = data.data.length
  simp

/-- C9 counterexample: neither mode's folder filter accepts a `.gif` file, so
no mode "additionally accepts `.gif`" as the claim states. -/
theorem c9_counterexample :
    manual_load_images ["scan.gif"] = [] ∧ auto_load_images ["scan.gif"] = [] ∧
      manual_load_images ["scan.png", "scan.gif", "SCAN.JPG"] = ["scan.png", "SCAN.JPG"] := by
  refine ⟨?_, ?_, ?_⟩ <;> rfl

/-- C9 amended: both folder-loading modes accept exactly the files whose names
end case-insensitively with `.png`, `.jpg`, `.jpeg` or `.bmp`; the two
filters are identical and neither accepts `.gif`. -/
theorem c9_amended :
    (∀ fs : List String, manual_load_images fs = auto_load_images fs) ∧
      ∀ fs : List String, ∀ f : String,
        f ∈ manual_load_images fs ↔ f ∈ fs ∧ specAcceptedExt f = true := by
  refine ⟨fun fs => rfl, fun fs f => ?_⟩
  rw [manual_load_images, List.mem_filter, specAcceptedExt]
  simp [Bool.or_assoc]

/-- C10: run on an empty image list, the worker emits the completion event
exactly once and nothing else — in particular no progress event, so the
division by `total_images` in the progress formula is never evaluated. -/
theorem c10_empty_run (sf : ℕ) (outDir ts : String) :
    run sf outDir ts [] = ⟨[Event.finished], [], none, false⟩ := rfl

/-- C1 counterexample: a batch whose single image is unreadable.  The line-43
`continue` skips the line-95 progress emit, so no progress event at all is
emitted for that image's index and progress never reaches 100, contradicting
the claim that the image-load failure path also emits progress. -/
theorem c1_counterexample :
    run 100 "out" "120000" [⟨"a.png", none, false, []⟩] =
        ⟨[.log "Error loading image: a.png", .finished], [], none, false⟩ ∧
      progressPayloads (run 100 "out" "120000" [⟨"a.png", none, false, []⟩]).events = [] := by
  exact ⟨rfl, rfl⟩

/-- C2: the failing input of the code bug.  The first (and only) image is
readable but 3 pixels wide; with the scale factor at 25%, line 47 computes
`int(3 * 0.25) = 0` and `cv2.resize` raises before line 53 ever assigns
`base_name`; the line-93 handler then dereferences the unbound local and the
resulting `NameError` aborts `run`: nothing is logged, no progress is emitted,
and the completion signal is never emitted. -/
theorem c2_bug_eval :
    run 25 "out" "120000" [⟨"tiny.png", some (3, 3), false, []⟩] =
        ⟨[], [], none, true⟩ ∧
      countFinished (run 25 "out" "120000" [⟨"tiny.png", some (3, 3), false, []⟩]).events = 0 := by
  exact ⟨rfl, rfl⟩

/-- C3 counterexample: three readable images.  After the second image
(0-based index 1) the worker emits `int(2/3*100) = 66` (the truncated
double-precision value), while the claim's formula `round(2/3*100)` gives 67:
the code truncates, it does not round. -/
theorem c3_counterexample :
    progressPayloads (run 100 "out" "120000"
        [⟨"a.png", some (5, 5), false, []⟩, ⟨"b.png", some (5, 5), false, []⟩,
         ⟨"c.png", some (5, 5), false, []⟩]).events = [33, 66, 100] ∧
      round (((1 : ℚ) + 1) / 3 * 100) = 67 ∧ (66 : ℕ) ≠ 67 := by
  refine ⟨by with_unfolding_all decide, ?_, by decide⟩
  norm_num [round_eq]

/-- C4 counterexample: a symbol whose bounding box starts at the image corner
(`left = top = 0`, `width = height = 5` in a 100x100 image).  The code's crop
(lines 69-74) keeps the full `width + 2*pad` extent anchored at the clamped
origin, giving a 25x25 crop, while the box the claim describes — expanded by
exactly 10 px on each side and clamped — is only 15x15. -/
theorem c4_counterexample :
    cropBox 100 100 ⟨0, 0, 5, 5⟩ = ⟨0, 0, 25, 25⟩ ∧
      specPaddedBox 100 100 ⟨0, 0, 5, 5⟩ = ⟨0, 0, 15, 15⟩ ∧
      cropBox 100 100 ⟨0, 0, 5, 5⟩ ≠ specPaddedBox 100 100 ⟨0, 0, 5, 5⟩ := by
  refine ⟨by decide, by decide, by decide⟩

/-- C8 counterexample: on the aborting input (readable 2-pixel-wide first
image, scale 25%) the worker terminates by an uncaught `NameError` before
line 97, so the completion event is emitted zero times, not exactly once. -/
theorem c8_counterexample :
    countFinished (run 25 "out2" "130000" [⟨"c.png", some (2, 2), false, []⟩]).events = 0 ∧
      (run 25 "out2" "130000" [⟨"c.png", some (2, 2), false, []⟩]).aborted = true := by
  exact ⟨rfl, rfl⟩

theorem pyInt_nonneg {q : ℚ} (h : 0 ≤ q) : 0 ≤ pyInt q := by
  rw [pyInt, if_pos h]
  exact Int.floor_nonneg.mpr h

theorem pyInt_le_int {q : ℚ} {n : ℤ} (hq : q ≤ (n : ℚ)) (hn : 0 ≤ n) : pyInt q ≤ n := by
  rw [pyInt]
  split
  · have h := Int.floor_mono hq
    rwa [Int.floor_intCast] at h
  · calc ⌈q⌉ ≤ 0 := Int.ceil_le.mpr (by exact_mod_cast le_of_not_le (by assumption))
      _ ≤ n := hn

/-- C5: for any drag whose start point lies inside the displayed image (the
`contains` check of `mousePressEvent`, line 186) and any end point, possibly
far outside the image, the rectangle clamped by `detect_matrix` satisfies
`0 ≤ x`, `0 ≤ y`, `x + width ≤ W`, `y + height ≤ H`, and its width and height
are never negative. -/
theorem c5_clamp_in_bounds (W H : ℤ) (s e : PointF)
    (hW : 0 ≤ W) (hH : 0 ≤ H)
    (hx0 : 0 ≤ s.x) (hxW : s.x ≤ (W : ℚ)) (hy0 : 0 ≤ s.y) (hyH : s.y ≤ (H : ℚ)) :
    0 ≤ (detect_matrix_clamp W H (update_selection s e)).x ∧
      0 ≤ (detect_matrix_clamp W H (update_selection s e)).y ∧
      (detect_matrix_clamp W H (update_selection s e)).x +
          (detect_matrix_clamp W H (update_selection s e)).w ≤ W ∧
      (detect_matrix_clamp W H (update_selection s e)).y +
          (detect_matrix_clamp W H (update_selection s e)).h ≤ H ∧
      0 ≤ (detect_matrix_clamp W H (update_selection s e)).w ∧
      0 ≤ (detect_matrix_clamp W H (update_selection s e)).h := by
  have hxle : max 0 (pyInt (min s.x e.x)) ≤ W :=
    max_le hW (pyInt_le_int (le_trans (min_le_left _ _) hxW) hW)
  have hyle : max 0 (pyInt (min s.y e.y)) ≤ H :=
    max_le hH (pyInt_le_int (le_trans (min_le_left _ _) hyH) hH)
  simp only [detect_matrix_clamp, update_selection]
  refine ⟨le_max_left _ _, le_max_left _ _, ?_, ?_, ?_, ?_⟩
  · have h := min_le_left (W - max 0 (pyInt (min s.x e.x))) (pyInt |e.x - s.x|)
    omega
  · have h := min_le_left (H - max 0 (pyInt (min s.y e.y))) (pyInt |e.y - s.y|)
    omega
  · exact le_min (by omega) (pyInt_nonneg (abs_nonneg _))
  · exact le_min (by omega) (pyInt_nonneg (abs_nonneg _))

/-- Witness for C5 at a concrete drag: image 10x8, start point (2, 3) inside
the image, end point (20, -5) outside it on both axes. -/
theorem c5_clamp_witness :
    ((0 : ℤ) ≤ 10 ∧ (0 : ℤ) ≤ 8 ∧
      (0 : ℚ) ≤ (PointF.mk 2 3).x ∧ (PointF.mk 2 3).x ≤ ((10 : ℤ) : ℚ) ∧
      (0 : ℚ) ≤ (PointF.mk 2 3).y ∧ (PointF.mk 2 3).y ≤ ((8 : ℤ) : ℚ)) ∧
    (0 ≤ (detect_matrix_clamp 10 8 (update_selection ⟨2, 3⟩ ⟨20, -5⟩)).x ∧
      0 ≤ (detect_matrix_clamp 10 8 (update_selection ⟨2, 3⟩ ⟨20, -5⟩)).y ∧
      (detect_matrix_clamp 10 8 (update_selection ⟨2, 3⟩ ⟨20, -5⟩)).x +
          (detect_matrix_clamp 10 8 (update_selection ⟨2, 3⟩ ⟨20, -5⟩)).w ≤ 10 ∧
      (detect_matrix_clamp 10 8 (update_selection ⟨2, 3⟩ ⟨20, -5⟩)).y +
          (detect_matrix_clamp 10 8 (update_selection ⟨2, 3⟩ ⟨20, -5⟩)).h ≤ 8 ∧
      0 ≤ (detect_matrix_clamp 10 8 (update_selection ⟨2, 3⟩ ⟨20, -5⟩)).w ∧
      0 ≤ (detect_matrix_clamp 10 8 (update_selection ⟨2, 3⟩ ⟨20, -5⟩)).h) :=
  ⟨⟨by norm_num, by norm_num, by norm_num, by norm_num, by norm_num, by norm_num⟩,
   c5_clamp_in_bounds 10 8 ⟨2, 3⟩ ⟨20, -5⟩ (by norm_num) (by norm_num)
     (by norm_num) (by norm_num) (by norm_num) (by norm_num)⟩

/-- C3 amended: the progress value emitted after the i-th image (the progress
entry of the i-th per-image block when that image loads) equals
`int(fl(fl((i+1)/total) * 100))` — the truncation of the double-precision
evaluation of `(i+1)/total*100`, not its rounding — and the sequence of
emitted progress values of any batch run is monotonically non-decreasing.
The concrete conjuncts pin the value down against both alternatives: at
`total = 100, i = 28` the emitted value is 28, where the exact-rational floor
would give 29 and rounding would give 29, and at `total = 3, i = 1` it is 66,
where rounding would give 67. -/
theorem c3_amended :
    (∀ (sf : ℕ) (o ts : String) (images : List ImageCase),
        List.Chain' (· ≤ ·) (progressPayloads (run sf o ts images).events)) ∧
      (∀ (sf : ℕ) (o ts : String) (total i : ℕ) (b : Option String) (c : ImageCase),
        (processImage sf o ts b c).skipProgress = false →
        progressPayloads (imageBlock sf o ts total i b c) = [imageProgress total i]) ∧
      (∀ total i : ℕ, imageProgress total i =
        (pyInt (roundDouble (roundDouble (((i : ℚ) + 1) / (total : ℚ)) * 100))).toNat) ∧
      imageProgress 100 28 = 28 ∧ imageProgress 3 1 = 66 := by
  refine ⟨?_, ?_, fun total i => rfl, by with_unfolding_all decide,
    by with_unfolding_all decide⟩
  · intro sf o ts images
    have h := (runLoop_progress_chain sf o ts images.length images 0 none).1
    rw [run_eq]
    by_cases hab : (runLoop sf o ts images.length 0 none images).aborted = true
    · rw [if_pos hab]
      exact h
    · rw [if_neg hab]
      dsimp only
      rw [progressPayloads_append]
      have hfin : progressPayloads [Event.finished] = [] := rfl
      rw [hfin, List.append_nil]
      exact h
  · intro sf o ts total i b c hskip
    unfold imageBlock
    rw [progressPayloads_append, hskip, if_neg (by simp),
      processImage_no_progress, List.nil_append]
    rfl

/-- Witness for C3 amended at a concrete run and a concrete non-skipping
image (its load succeeds, so its block carries a progress entry). -/
theorem c3_amended_witness :
    List.Chain' (· ≤ ·) (progressPayloads
        (run 100 "o3" "t3" [⟨"p.png", some (4, 4), false, []⟩]).events) ∧
      ((processImage 100 "o3" "t3" none
          ⟨"p.png", some (4, 4), false, []⟩).skipProgress = false ∧
        progressPayloads (imageBlock 100 "o3" "t3" 1 0 none
          ⟨"p.png", some (4, 4), false, []⟩) = [imageProgress 1 0]) :=
  ⟨(c3_amended).1 100 "o3" "t3" [⟨"p.png", some (4, 4), false, []⟩],
   ⟨rfl, (c3_amended).2.1 100 "o3" "t3" 1 0 none ⟨"p.png", some (4, 4), false, []⟩ rfl⟩⟩

/-- C1 amended: progress is emitted for every image the loop handles except
those on the image-load failure path, whose `continue` skips the line-95
emit.  Consequently progress ends at exactly 100 provided the run is not
aborted and the last image loads successfully: the event list then ends with
the progress-100 event directly followed by the completion event. -/
theorem c1_amended (sf : ℕ) (o ts : String) (front : List ImageCase) (c : ImageCase)
    (hload : c.load.isSome = true)
    (hab : (run sf o ts (front ++ [c])).aborted = false) :
    ∃ pre, (run sf o ts (front ++ [c])).events =
      pre ++ [Event.progress 100, Event.finished] := by
  rw [run_eq] at hab ⊢
  by_cases hL : (runLoop sf o ts (front ++ [c]).length 0 none (front ++ [c])).aborted = true
  · rw [if_pos hL] at hab
    rw [hL] at hab
    exact Bool.noConfusion hab
  · rw [if_neg hL]
    rw [runLoop_append] at hL ⊢
    by_cases hF : (runLoop sf o ts (front ++ [c]).length 0 none front).aborted = true
    · rw [if_pos hF] at hL
      exact absurd hF hL
    · rw [if_neg hF] at hL ⊢
      dsimp only at hL ⊢
      rw [runLoop_cons] at hL ⊢
      by_cases hS : (processImage sf o ts
          (runLoop sf o ts (front ++ [c]).length 0 none front).baseEnd c).aborted = true
      · rw [if_pos hS] at hL
        exact absurd rfl hL
      · rw [if_neg hS]
        dsimp only
        have hskip : (processImage sf o ts
            (runLoop sf o ts (front ++ [c]).length 0 none front).baseEnd c).skipProgress
              = true ↔ False := by
          rw [processImage_skip]
          rcases hc : c.load with - | v
          · rw [hc] at hload
            exact Bool.noConfusion hload
          · simp
        have hprog : imageProgress (front ++ [c]).length (0 + front.length) = 100 := by
          have hlen : (front ++ [c]).length = front.length + 1 := by simp
          rw [hlen, Nat.zero_add]
          exact imageProgress_last front.length
        rw [if_neg hskip.mp, hprog]
        refine ⟨(runLoop sf o ts (front ++ [c]).length 0 none front).events ++
          (processImage sf o ts
            (runLoop sf o ts (front ++ [c]).length 0 none front).baseEnd c).events, ?_⟩
        simp [runLoop, List.append_assoc]

/-- Witness for C1 amended: a one-image batch whose image loads successfully;
its run ends with the progress-100 and completion events. -/
theorem c1_amended_witness :
    ((⟨"ok.png", some (5, 5), false, []⟩ : ImageCase).load.isSome = true ∧
      (run 100 "o1" "t1" ([] ++ [⟨"ok.png", some (5, 5), false, []⟩])).aborted = false) ∧
      ∃ pre, (run 100 "o1" "t1" ([] ++ [⟨"ok.png", some (5, 5), false, []⟩])).events =
        pre ++ [Event.progress 100, Event.finished] :=
  ⟨⟨rfl, rfl⟩, c1_amended 100 "o1" "t1" [] ⟨"ok.png", some (5, 5), false, []⟩ rfl rfl⟩

/-- C8 amended: in every batch run that is not aborted by the unhandled
`NameError` of line 93, the completion event is emitted exactly once and
strictly after every other event, and the events before it decompose into
per-image blocks in which every log line precedes the block's (at most one)
progress event. -/
theorem c8_amended (sf : ℕ) (o ts : String) (images : List ImageCase)
    (hab : (run sf o ts images).aborted = false) :
    (run sf o ts images).events =
        (runBlocks sf o ts images.length 0 none images).flatten ++ [Event.finished] ∧
      (runBlocks sf o ts images.length 0 none images).length = images.length ∧
      (∀ blk ∈ runBlocks sf o ts images.length 0 none images, LogsThenProgress blk) ∧
      countFinished (run sf o ts images).events = 1 := by
  rw [run_eq] at hab ⊢
  by_cases hL : (runLoop sf o ts images.length 0 none images).aborted = true
  · rw [if_pos hL] at hab
    rw [hL] at hab
    exact Bool.noConfusion hab
  · rw [if_neg hL]
    dsimp only
    have hnot : (runLoop sf o ts images.length 0 none images).aborted = false := by
      cases h : (runLoop sf o ts images.length 0 none images).aborted
      · rfl
      · exact absurd h hL
    have hev := runLoop_events_eq_blocks sf o ts images.length images 0 none hnot
    have hltp := runBlocks_logsThenProgress sf o ts images.length images 0 none
    refine ⟨by rw [hev], runBlocks_length sf o ts images.length images 0 none, hltp, ?_⟩
    rw [hev, countFinished_append, countFinished_flatten_zero _ hltp]
    rfl

/-- Witness for C8 amended at a concrete non-aborting run containing one
image with one decoded symbol. -/
theorem c8_amended_witness :
    (run 100 "o8" "t8" [symbolCase]).aborted = false ∧
      ((run 100 "o8" "t8" [symbolCase]).events =
          (runBlocks 100 "o8" "t8" [symbolCase].length 0 none [symbolCase]).flatten ++
            [Event.finished] ∧
        (runBlocks 100 "o8" "t8" [symbolCase].length 0 none [symbolCase]).length =
          [symbolCase].length ∧
        (∀ blk ∈ runBlocks 100 "o8" "t8" [symbolCase].length 0 none [symbolCase],
          LogsThenProgress blk) ∧
        countFinished (run 100 "o8" "t8" [symbolCase]).events = 1) :=
  ⟨rfl, c8_amended 100 "o8" "t8" [symbolCase] rfl⟩

/-- C4 amended: the saved crop region is `x = max(0, left-10)`,
`y = max(0, top-10)`, `w = min(W - x, width + 20)`, `h = min(H - y,
height + 20)`; this equals the 10-px-padded clamped bounding box whenever the
box starts at least 10 px from the left and top edges (when the origin clamp
binds, the code instead keeps the full `width + 20` extent anchored at the
clamped origin).  In all cases the crop is taken from the original scaled
color image, never from a preprocessed buffer. -/
theorem c4_amended :
    (∀ (W H : ℤ) (r : DmtxRect), 10 ≤ r.left → 10 ≤ r.top →
        cropBox W H r = specPaddedBox W H r) ∧
      ∀ (sf : ℕ) (o ts : String) (images : List ImageCase),
        ∀ s ∈ (run sf o ts images).saves,
          ∃ q x y w h, s.buf = Buffer.cropped q x y w h ∧ q.isPreprocessed = false := by
  constructor
  · intro W H r h1 h2
    simp only [cropBox, specPaddedBox, CropQuad.mk.injEq]
    rw [max_eq_right (by omega : (0 : ℤ) ≤ r.left - 10),
      max_eq_right (by omega : (0 : ℤ) ≤ r.top - 10)]
    refine ⟨trivial, trivial, ?_, ?_⟩
    · rcases le_total W (r.left + r.width + 10) with hc | hc
      · rw [min_eq_left hc, min_eq_left (by omega)]
      · rw [min_eq_right hc, min_eq_right (by omega)]
        omega
    · rcases le_total H (r.top + r.height + 10) with hc | hc
      · rw [min_eq_left hc, min_eq_left (by omega)]
      · rw [min_eq_right hc, min_eq_right (by omega)]
        omega
  · intro sf o ts images s hs
    rw [run_eq] at hs
    by_cases hL : (runLoop sf o ts images.length 0 none images).aborted = true
    · rw [if_pos hL] at hs
      exact runLoop_saves_crop sf o ts images.length images 0 none s hs
    · rw [if_neg hL] at hs
      exact runLoop_saves_crop sf o ts images.length images 0 none s hs

/-- Witness for C4 amended: a box starting 10 px or more from both edges
agrees with the spec's padded box, and the concrete file saved for
`witnessImage` is a crop of the (unpreprocessed) original image. -/
theorem c4_amended_witness :
    ((10 : ℤ) ≤ (DmtxRect.mk 20 15 5 5).left ∧ (10 : ℤ) ≤ (DmtxRect.mk 20 15 5 5).top ∧
      cropBox 100 90 ⟨20, 15, 5, 5⟩ = specPaddedBox 100 90 ⟨20, 15, 5, 5⟩) ∧
      (witnessSave ∈ (run 100 "ow" "tw" [witnessImage]).saves ∧
        ∃ q x y w h, witnessSave.buf = Buffer.cropped q x y w h ∧
          q.isPreprocessed = false) :=
  ⟨⟨by decide, by decide, (c4_amended).1 100 90 ⟨20, 15, 5, 5⟩ (by decide) (by decide)⟩,
   ⟨by decide, (c4_amended).2 100 "ow" "tw" [witnessImage] witnessSave (by decide)⟩⟩

end QRAnalyzer
